import Mathlib

/-!
Verification of the excel2csv repository's header-resolution and
boundary-detection core against its natural-language specification.

The Go sources are shallowly embedded: slices that share a backing array
(the `remove` helper shifts elements in place) are modelled by `GoSlice`,
a backing list together with a view length; Go maps are modelled as
association lists with a fixed iteration order; a runtime panic
(out-of-range index) is modelled by `Option`/a dedicated result
constructor.  Pure string helpers from the Go standard library are
translated directly.
-/

namespace Excel2Csv

/-- Lowercase one ASCII character, as Go `strings.ToLower` does on ASCII input. -/
def goLowerChar (c : Char) : Char :=
  if 'A' ≤ c ∧ c ≤ 'Z' then Char.ofNat (c.toNat + 32) else c

/-- Lowercase a character list, modelling `strings.ToLower`. -/
def goLower (l : List Char) : List Char := l.map goLowerChar

/-- `strings.Trim(s, " ")`: drop leading and trailing space characters. -/
def goTrimChars (l : List Char) : List Char :=
  ((l.dropWhile (fun c => c = ' ')).reverse.dropWhile (fun c => c = ' ')).reverse

/-- A cell is blank for excel2csv.go when `strings.Trim(cell, " ")` is empty. -/
def isBlankCell (s : String) : Bool := (goTrimChars s.data).isEmpty

/-- Substring containment on character lists, modelling `strings.Contains`. -/
def goContainsList (hay needle : List Char) : Bool :=
  match hay with
  | [] => needle.isEmpty
  | c :: t => needle.isPrefixOf (c :: t) || goContainsList t needle

/-- `strings.Contains(strings.ToLower(strings.Trim(cell, " ")), strings.ToLower(alias))`,
the alias test of `mayBeHeaders`. -/
def goContainsLower (cell alia : String) : Bool :=
  goContainsList (goLower (goTrimChars cell.data)) (goLower alia.data)

/-- A Go string slice: the full backing array together with the view length.
`remove` (`append(slice[:i], slice[i+1:]...)`) shifts the backing array in
place, which is visible through every other slice sharing that array. -/
structure GoSlice where
  arr : List String
  len : Nat
deriving DecidableEq, Repr

/-- The strings an observer of the slice reads. -/
def GoSlice.view (s : GoSlice) : List String := s.arr.take s.len

/-- `func (s *Sheet) remove(slice []string, i int) []string`:
`append(slice[:i], slice[i+1:]...)`.  Elements `i+1 .. len-1` are copied one
slot to the left inside the shared backing array; slots from `len-1` on keep
their old values; the returned slice is one element shorter. -/
def removeGo (s : GoSlice) (i : Nat) : GoSlice :=
  { arr := s.arr.take i ++ (s.arr.drop (i + 1)).take (s.len - 1 - i)
             ++ s.arr.drop (s.len - 1),
    len := s.len - 1 }

/-- Enumerate a list with indices starting at `i` (the `for i, x := range` idiom). -/
def enumFrom {α : Type} (i : Nat) : List α → List (Nat × α)
  | [] => []
  | a :: l => (i, a) :: enumFrom (i + 1) l

/-- The fields of the Go `Sheet` struct that the conversion logic reads and
writes (file/reader handles are irrelevant to the embedded algorithms). -/
structure Sheet where
  possibleHeaders : List (String × String)
  requiredHeaders : GoSlice
  headersRow : Nat
  headers : List String
  matterIndexes : List Nat
  requiredIndexes : List Nat
deriving Repr

/-- A `Sheet` as produced by `Open`: every field holds its Go zero value. -/
def freshSheet : Sheet :=
  { possibleHeaders := [], requiredHeaders := ⟨[], 0⟩, headersRow := 0,
    headers := [], matterIndexes := [], requiredIndexes := [] }

/-- The `for i, requiredHeader := range requiredHeaders` search loop: index of
the first entry equal to `v`. -/
def findIdxStr (v : String) : List String → Option Nat
  | [] => none
  | a :: t => if a = v then some 0 else (findIdxStr v t).map (· + 1)

/-- The loop of `parseIncomingHeadersInfo`: for each value of the possible-header
map, remove the first equal entry of the (shrinking) required-header slice. -/
def parseLoop : List (String × String) → GoSlice → GoSlice
  | [], req => req
  | (_, v) :: rest, req =>
    match findIdxStr v (GoSlice.view req) with
    | some i => parseLoop rest (removeGo req i)
    | none => parseLoop rest req

/-- `func (s *Sheet) parseIncomingHeadersInfo`: stores both inputs on the sheet,
then consumes one required entry per possible-header value; errors
(`errRequiredHeaders`, the returned Bool is `true`) when entries remain.
`s.requiredHeaders` is assigned before the loop, so it keeps the caller's
length while its backing array receives the in-place shifts of `remove`. -/
def parseIncomingHeadersInfo (s : Sheet) (possible : List (String × String))
    (required : GoSlice) : Sheet × Bool :=
  let final := parseLoop possible required
  ({ s with possibleHeaders := possible,
            requiredHeaders := { arr := final.arr, len := required.len } },
   final.len ≠ 0)

/-- Inner loop of `mayBeHeaders` for one cell: test every alias of the map
against the cell; on a containment match, record the column as a required
index and remove the first outstanding required header equal to the alias's
canonical field. -/
def mayBeHeadersCell (aliases : List (String × String)) (k : Nat)
    (st : GoSlice × List Nat) (cell : String) : GoSlice × List Nat :=
  aliases.foldl
    (fun st pr =>
      if goContainsLower cell pr.1 then
        match findIdxStr pr.2 (GoSlice.view st.1) with
        | some i => (removeGo st.1 i, st.2 ++ [k])
        | none => st
      else st)
    st

/-- `func (s *Sheet) mayBeHeaders(row []string) bool`: walk the cells,
consuming outstanding required headers on alias matches; the row qualifies
when none remain.  The local slice copy shares the sheet's backing array,
so the in-place shifts persist on `s.requiredHeaders` (with its old length),
and `s.requiredIndexes` keeps the appended indexes even when the row fails. -/
def mayBeHeaders (s : Sheet) (row : List String) : Sheet × Bool :=
  let st := (enumFrom 0 row).foldl
    (fun st kc => mayBeHeadersCell s.possibleHeaders kc.1 st kc.2)
    (s.requiredHeaders, s.requiredIndexes)
  ({ s with requiredIndexes := st.2,
            requiredHeaders := { arr := st.1.arr, len := s.requiredHeaders.len } },
   st.1.len = 0)

/-- Column indexes of the non-blank cells of a row (the `matterIndexes`
collection loop of `detectFileHeaders`). -/
def nonBlankIdx (row : List String) : List Nat :=
  ((enumFrom 0 row).filter (fun kc => ¬ isBlankCell kc.2)).map Prod.fst

/-- The row scan of `detectFileHeaders`, threading the sheet state (and its
mutations) through the non-qualifying rows; returns the found header row. -/
def detectLoop (s : Sheet) : List (Nat × List String) → Sheet × Option Nat
  | [] => (s, none)
  | (i, row) :: rest =>
    match mayBeHeaders s row with
    | (s1, true) =>
      ({ s1 with headersRow := i, headers := row,
                 matterIndexes := s1.matterIndexes ++ nonBlankIdx row }, some i)
    | (s1, false) => detectLoop s1 rest

/-- `func (s *Sheet) detectFileHeaders() error` over an in-memory grid:
`none` in the second component models the returned `errMissedHeaders`. -/
def detectFileHeaders (s : Sheet) (grid : List (List String)) : Sheet × Option Nat :=
  detectLoop s (enumFrom 0 grid)

/-- `func (s *Sheet) checkRequiredCells(row []string) bool`.  `row[index]`
with an index beyond the row's length is a Go runtime panic, modelled by
`none`; `some b` is a normal return. -/
def checkRequiredCells (requiredIdx : List Nat) (row : List String) : Option Bool :=
  match requiredIdx with
  | [] => some true
  | i :: rest =>
    match row.get? i with
    | none => none
    | some c => if isBlankCell c then some false else checkRequiredCells rest row

/-- The projection loop of `getMatterCells`: `row[index]` for every matter
index, `none` on an out-of-range panic. -/
def projectCells (matterIdx : List Nat) (row : List String) : Option (List String) :=
  match matterIdx with
  | [] => some []
  | i :: rest =>
    match row.get? i with
    | none => none
    | some c =>
      match projectCells rest row with
      | none => none
      | some cs => some (c :: cs)

/-- `func (s *Sheet) getMatterCells(row []string) []string`: outer `none`
models a panic; `some none` models the `nil` return (required check failed,
or no matter index ever appended, leaving the slice `nil`). -/
def getMatterCells (requiredIdx matterIdx : List Nat) (row : List String) :
    Option (Option (List String)) :=
  match checkRequiredCells requiredIdx row with
  | none => none
  | some false => some none
  | some true =>
    match projectCells matterIdx row with
    | none => none
    | some cells => some (if cells.isEmpty then none else some cells)

/-- Modelled from the spec: the RowFilter contract of section 4.4 (`isValidRow`),
whose words make an index beyond the row's length read as a blank cell, so the
row is invalid rather than a crash.  The Go code has no such function; this is
the comparison point for the claim about short rows. -/
def isValidRowSpec (requiredIdx : List Nat) (row : List String) : Bool :=
  requiredIdx.all (fun i => ¬ isBlankCell (row.getD i ""))

/-- Follows the spec's words (section 4.1): a row locates all required fields
when scanning its cells left to right, each alias contained in a cell consumes
one outstanding required field, and the outstanding set ends empty.  Used to
compare `Convert`'s failures with the spec's `MissingHeaders` condition. -/
def consumeCell (aliases : List (String × String)) (outstanding : List String)
    (cell : String) : List String :=
  aliases.foldl
    (fun out pr =>
      if goContainsLower cell pr.1 then
        match findIdxStr pr.2 out with
        | some i => out.eraseIdx i
        | none => out
      else out)
    outstanding

/-- Follows the spec's words (section 4.1): "a row qualifies as the header row
the moment the outstanding required-field set becomes empty after processing
all its cells", evaluated on a fresh outstanding set for the row. -/
def rowSatisfiesRequired (aliases : List (String × String))
    (required : List String) (row : List String) : Bool :=
  (row.foldl (consumeCell aliases) required).isEmpty

inductive GoError where
  | requiredHeadersErr
  | missedHeadersErr
deriving DecidableEq, Repr

/-- Outcome of `Convert`: a normal return with the rows written, a returned
error value (nothing written), or a runtime panic carrying the rows already
flushed by the deferred `Flush` (empty when the panic precedes the defer). -/
inductive ConvertResult where
  | ok : List (List String) → ConvertResult
  | err : GoError → ConvertResult
  | panicked : List (List String) → ConvertResult
deriving DecidableEq, Repr

/-- The data-writing loop of `Convert`: filter and project each row after the
header row; a panic inside `getMatterCells` aborts the loop (`true` flag). -/
def convertDataLoop (requiredIdx matterIdx : List Nat) :
    List (List String) → List (List String) × Bool
  | [] => ([], false)
  | row :: rest =>
    match getMatterCells requiredIdx matterIdx row with
    | none => ([], true)
    | some none => convertDataLoop requiredIdx matterIdx rest
    | some (some cells) =>
      let res := convertDataLoop requiredIdx matterIdx rest
      (cells :: res.1, res.2)

/-- `func (s *Sheet) Convert(...) error` over an in-memory grid:
parse the incoming header info, detect the header row, emit the projected
header row (`createOutputWriter`, which returns `errMissedHeaders` when the
projection comes back `nil`), then emit every passing data row. -/
def ConvertGo (s0 : Sheet) (grid : List (List String))
    (possible : List (String × String)) (required : GoSlice) :
    Sheet × ConvertResult :=
  match parseIncomingHeadersInfo s0 possible required with
  | (s1, true) => (s1, .err .requiredHeadersErr)
  | (s1, false) =>
    match detectFileHeaders s1 grid with
    | (s2, none) => (s2, .err .missedHeadersErr)
    | (s2, some _) =>
      match getMatterCells s2.requiredIndexes s2.matterIndexes s2.headers with
      | none => (s2, .panicked [])
      | some none => (s2, .err .missedHeadersErr)
      | some (some hdrOut) =>
        let res := convertDataLoop s2.requiredIndexes s2.matterIndexes
          (grid.drop (s2.headersRow + 1))
        (s2, if res.2 then .panicked (hdrOut :: res.1) else .ok (hdrOut :: res.1))

/-! ## converter.go: structural boundary detection -/

/-- The characters `unicode.IsSpace` accepts in the Latin-1 range, the ones
`strings.TrimSpace` strips. -/
def isGoSpace (c : Char) : Bool :=
  c = ' ' ∨ c = '\t' ∨ c = '\n' ∨ c.toNat = 11 ∨ c.toNat = 12 ∨ c = '\r'
    ∨ c.toNat = 133 ∨ c.toNat = 160

/-- `strings.TrimSpace`. -/
def goTrimSpace (s : String) : String :=
  ⟨((s.data.dropWhile isGoSpace).reverse.dropWhile isGoSpace).reverse⟩

def isDigitChar (c : Char) : Bool := '0' ≤ c ∧ c ≤ '9'

def isHexDigitChar (c : Char) : Bool :=
  isDigitChar c ∨ ('a' ≤ goLowerChar c ∧ goLowerChar c ≤ 'f')

/-- Models the `Inf`/`Infinity`/`NaN` special cases `strconv.ParseFloat`
accepts (case-insensitively; a sign is only allowed before the infinities). -/
def specialFloat (l : List Char) : Bool :=
  match l with
  | [] => false
  | c :: rest =>
    if c = '+' ∨ c = '-' then
      goLower rest = "inf".data ∨ goLower rest = "infinity".data
    else
      goLower l = "inf".data ∨ goLower l = "infinity".data ∨ goLower l = "nan".data

/-- Mantissa scan of `strconv.ParseFloat`'s number reader: consume digits
(hex digits in hex mode), underscores, and at most one dot; report whether a
digit was seen and return the unconsumed suffix (a second dot stops the scan). -/
def mantissaScan (hex sawdot sawdig : Bool) : List Char → Bool × List Char
  | [] => (sawdig, [])
  | c :: rest =>
    if c = '_' then mantissaScan hex sawdot sawdig rest
    else if c = '.' then
      if sawdot then (sawdig, c :: rest) else mantissaScan hex true sawdig rest
    else if (if hex then isHexDigitChar c else isDigitChar c) then
      mantissaScan hex sawdot true rest
    else (sawdig, c :: rest)

/-- Consume the digits-and-underscores run of an exponent. -/
def dropDigitsUnders : List Char → List Char
  | [] => []
  | c :: rest => if isDigitChar c ∨ c = '_' then dropDigitsUnders rest else c :: rest

/-- Exponent tail after the `e`/`p` marker: optional sign, then a digit
followed by digits or underscores, ending the string. -/
def expTail (l : List Char) : Bool :=
  let l1 := match l with
    | c :: rest => if c = '+' ∨ c = '-' then rest else l
    | [] => l
  match l1 with
  | c :: rest => isDigitChar c ∧ (dropDigitsUnders rest).isEmpty
  | [] => false

/-- Decimal body: mantissa with at least one digit, then an optional
`e`-exponent, nothing trailing. -/
def decBody (l : List Char) : Bool :=
  let m := mantissaScan false false false l
  if ¬ m.1 then false
  else
    match m.2 with
    | [] => true
    | c :: rest => if goLowerChar c = 'e' then expTail rest else false

/-- Hexadecimal body (after `0x`): hex mantissa with at least one digit and a
mandatory `p`-exponent. -/
def hexBody (l : List Char) : Bool :=
  let m := mantissaScan true false false l
  if ¬ m.1 then false
  else
    match m.2 with
    | c :: rest => if goLowerChar c = 'p' then expTail rest else false
    | [] => false

/-- The digit-separator check of `strconv` (`underscoreOK`): every underscore
must sit between digits (the base prefix counting as a digit), tracked by the
class of the previously seen character. -/
def underscoreLoop (hex : Bool) (saw : Char) : List Char → Bool
  | [] => saw ≠ '_'
  | c :: rest =>
    if isDigitChar c ∨ (hex ∧ 'a' ≤ goLowerChar c ∧ goLowerChar c ≤ 'f') then
      underscoreLoop hex '0' rest
    else if c = '_' then
      if saw ≠ '0' then false else underscoreLoop hex '_' rest
    else if saw = '_' then false
    else underscoreLoop hex '!' rest

def underscoreOKGo (l : List Char) : Bool :=
  let l1 := match l with
    | c :: rest => if c = '-' ∨ c = '+' then rest else l
    | [] => l
  match l1 with
  | '0' :: b :: rest =>
    if goLowerChar b = 'b' ∨ goLowerChar b = 'o' ∨ goLowerChar b = 'x' then
      underscoreLoop (goLowerChar b = 'x') '0' rest
    else underscoreLoop false '^' l1
  | _ => underscoreLoop false '^' l1

/-- Models acceptance by `strconv.ParseFloat(value, 64)`: a special value, or
a well-formed decimal/hex float occupying the whole string, with any
underscores placed legally. -/
def parseFloatAccepts (l : List Char) : Bool :=
  let body :=
    let l1 := match l with
      | c :: rest => if c = '+' ∨ c = '-' then rest else l
      | [] => l
    match l1 with
    | '0' :: x :: rest => if goLowerChar x = 'x' then hexBody rest else decBody l1
    | _ => decBody l1
  specialFloat l || (body && (!l.contains '_' || underscoreOKGo l))

/-- `func (ec *ExcelConverter) looksLikeNumber(value string) bool`: empty
strings are rejected, grouping commas and spaces are stripped, then the rest
must parse as a float. -/
def looksLikeNumber (value : String) : Bool :=
  if value.data.isEmpty then false
  else parseFloatAccepts (value.data.filter (fun c => ¬ (c = ',' ∨ c = ' ')))

/-- `countNonEmptyCells`: cells whose `strings.TrimSpace` image is non-empty. -/
def countNonEmptyCells (row : List String) : Nat :=
  (row.filter (fun c => ¬ (c.data.all isGoSpace))).length

/-- `countNumericCells`: cells whose trimmed text looks like a number. -/
def countNumericCells (row : List String) : Nat :=
  (row.filter (fun c => looksLikeNumber (goTrimSpace c))).length

/-- `hasData`: some cell is non-blank. -/
def hasData (row : List String) : Bool :=
  row.any (fun c => ¬ (c.data.all isGoSpace))

/-- The header-candidate scan of `detectTableBoundariesImproved`: keep the
first row maximising the non-empty count among rows with at least five
non-empty cells and at most one numeric cell (`headerRow = -1` start is the
`none` state, `maxNonEmpty` starts at 0). -/
def findHeaderLoop : List (Nat × List String) → Option Nat × Nat → Option Nat × Nat
  | [], st => st
  | (i, r) :: rest, (hdr, mx) =>
    if 5 ≤ countNonEmptyCells r ∧ countNumericCells r ≤ 1 ∧ mx < countNonEmptyCells r then
      findHeaderLoop rest (some i, countNonEmptyCells r)
    else findHeaderLoop rest (hdr, mx)

/-- The extent scan of `detectTableBoundariesImproved`, walking the rows after
the header row: break on a sparse footer row, extend `tableEnd` on a dense
row, otherwise break on a fully blank row, otherwise skip the row. -/
def extentLoopGo (ec tableEnd i : Nat) : List (List String) → Nat
  | [] => tableEnd
  | r :: rest =>
    if 0 < countNonEmptyCells r ∧ countNonEmptyCells r < ec / 3 then tableEnd
    else if ec / 2 ≤ countNonEmptyCells r then extentLoopGo ec i (i + 1) rest
    else if countNonEmptyCells r = 0 then tableEnd
    else extentLoopGo ec tableEnd (i + 1) rest

/-- The extent scan as the claim words it: stop at the first row with
`0 < nonEmpty < expectedCols/3`; stop at a row with `nonEmpty = 0`; advance
`lastGoodRow` on every row with `nonEmpty ≥ expectedCols/2`; skip the rest. -/
def extentScanSpec (ec lastGoodRow i : Nat) : List (List String) → Nat
  | [] => lastGoodRow
  | r :: rest =>
    if 0 < countNonEmptyCells r ∧ countNonEmptyCells r < ec / 3 then lastGoodRow
    else if countNonEmptyCells r = 0 then lastGoodRow
    else if ec / 2 ≤ countNonEmptyCells r then extentScanSpec ec i (i + 1) rest
    else extentScanSpec ec lastGoodRow (i + 1) rest

/-- The fallback scan: index of the first row with any data. -/
def firstDataIdxAux (i : Nat) : List (List String) → Option Nat
  | [] => none
  | r :: rest => if hasData r then some i else firstDataIdxAux (i + 1) rest

/-- `func (ec *ExcelConverter) detectTableBoundariesImproved(records [][]string) (int, int)`.
The `headerRow == -1` sentinel is the `none` case of the candidate scan. -/
def detectTableBoundariesImproved (records : List (List String)) : Nat × Nat :=
  if records.isEmpty then (0, 0)
  else
    match findHeaderLoop (enumFrom 0 records) (none, 0) with
    | (some hdr, mx) => (hdr, extentLoopGo mx hdr (hdr + 1) (records.drop (hdr + 1)))
    | (none, _) =>
      match firstDataIdxAux 0 records with
      | some i => (i, records.length - 1)
      | none => (0, 0)

/-- The Go slice expression `records[start : end+1]`. -/
def goSliceRows (records : List (List String)) (s e : Int) : List (List String) :=
  (records.drop s.toNat).take (e.toNat + 1 - s.toNat)

/-- The automatic branch of `processTableData`: detect boundaries and slice
when they are in range (`tableStart >= 0` holds by construction here),
otherwise fall back to all records. -/
def autoProcess (records : List (List String)) : List (List String) :=
  let b := detectTableBoundariesImproved records
  if b.1 ≤ b.2 ∧ b.2 < records.length then
    (records.drop b.1).take (b.2 + 1 - b.1)
  else records

/-- `func (ec *ExcelConverter) processTableData(records [][]string) [][]string`:
empty input is returned as is; with both manual boundaries set and in range
the slice is returned; otherwise the improved automatic detection runs. -/
def processTableData (forcedStart forcedEnd : Option Int)
    (records : List (List String)) : List (List String) :=
  if records.isEmpty then records
  else
    match forcedStart, forcedEnd with
    | some s, some e =>
      if 0 ≤ s ∧ s ≤ e ∧ s < (records.length : Int) ∧ e < (records.length : Int) then
        goSliceRows records s e
      else autoProcess records
    | _, _ => autoProcess records

/-! ## Derived definitions used by the verification -/

/-- Remove the first occurrence of `v` from `l` (the effect of one
`findIdx?`/`eraseIdx` step of `parseLoop` on the slice view). -/
def eraseFirst (l : List String) (v : String) : List String :=
  match l with
  | [] => []
  | a :: t => if a = v then t else a :: eraseFirst t v

/-- The values of an alias map (canonical field names). -/
def valuesOf (entries : List (String × String)) : List String :=
  entries.map Prod.snd

/-- The header resolution performed by the C3 counterexample run: a first row
that matches the `price` alias but does not qualify, then a qualifying row. -/
def c3Resolved : Sheet × Option Nat :=
  detectFileHeaders
    (parseIncomingHeadersInfo freshSheet
      [("price", "price"), ("make", "brand")] ⟨["brand", "price"], 2⟩).1
    [["", "", "price list"], ["make", "price"]]

def c4Grid : List (List String) := [["price", "note"], ["1", "x"]]

/-- First `Convert` call of the C4 run, starting from a freshly opened sheet. -/
def c4Run1 : Sheet × ConvertResult :=
  ConvertGo freshSheet c4Grid [("price", "price")] ⟨["price"], 1⟩

/-- Second `Convert` call of the C4 run, on the sheet the first call left. -/
def c4Run2 : Sheet × ConvertResult :=
  ConvertGo c4Run1.1 c4Grid [("price", "price")] ⟨["price"], 1⟩

/-- The header resolution of the C5 run: a single row that matches both
aliases, so resolution succeeds on the first row. -/
def c5Resolved : Sheet × Option Nat :=
  detectFileHeaders
    (parseIncomingHeadersInfo freshSheet
      [("price", "price"), ("make", "brand")] ⟨["brand", "price"], 2⟩).1
    [["make it", "price usd"]]

/-- The five-row grid of the spec's Scenario 4. -/
def scenario4Grid : List (List String) :=
  [["Co Name"], ["A", "B", "C", "D", "E"], ["1", "x", "2", "y", "3"],
   ["1", "x", "2", "y", "3"], ["Total", "", "", "", ""]]

/-! ## Claims -/

/-- Claim C1.  The claim says a required or matter index beyond a short data
row is treated as a blank cell (row invalid, blank projection) and nothing
crashes.  The code indexes `row[index]` unguarded: on the grid below the
header row resolves with required indexes `[0, 2]`, and the one-cell data row
`["1"]` makes `checkRequiredCells` panic with an index out of range, so
`Convert` dies after flushing only the header row — while the spec's
`isValidRow` reading would have classified the row as invalid without a
crash. -/
theorem claim_C1_short_row_panics :
    (ConvertGo freshSheet [["b", "x", "q"], ["1"]]
        [("q", "qty"), ("b", "brand")] ⟨["brand", "qty"], 2⟩).2
      = .panicked [["b", "x", "q"]]
    ∧ isValidRowSpec [0, 2] ["1"] = false := by decide

/-- Claim C2.  The claim says `Convert` fails with `MissingHeaders` if and
only if no grid row satisfies all required fields.  Counterexample to the
"only if" direction: row 1 of the grid below does satisfy all required
fields (per the spec's own row criterion, evaluated on a fresh outstanding
set), yet `Convert` returns `errMissedHeaders` — the required index `0`
recorded while scanning the non-qualifying row 0 points at a blank cell of
the selected header row, so `createOutputWriter` rejects the header
projection. -/
theorem claim_C2_missing_headers_despite_satisfiable_row :
    (ConvertGo freshSheet [["price list"], ["", "make", "price"]]
        [("price", "price"), ("make", "brand")] ⟨["brand", "price"], 2⟩).2
      = .err .missedHeadersErr
    ∧ rowSatisfiesRequired [("price", "price"), ("make", "brand")]
        ["brand", "price"] ["", "make", "price"] = true := by decide

/-- Claim C3.  The claim says `requiredIndexes ⊆ matterIndexes` and that
required status is recorded only in the selected header row.  In the C3 run
the resolution succeeds at row 1 with `matterIndexes = [0, 1]`, but
`requiredIndexes = [2, 0, 1]`: the entry `2` was appended while scanning the
non-qualifying row 0 and survives, breaking the subset invariant. -/
theorem claim_C3_required_index_pollution :
    c3Resolved.2 = some 1
    ∧ c3Resolved.1.requiredIndexes = [2, 0, 1]
    ∧ c3Resolved.1.matterIndexes = [0, 1]
    ∧ ¬ (∀ i ∈ c3Resolved.1.requiredIndexes, i ∈ c3Resolved.1.matterIndexes) := by
  decide

/-- Claim C4.  The claim says running `Convert` twice on the same grid and
configuration yields identical output sequences.  The sheet's
`matterIndexes`/`requiredIndexes` are never reset, so the second run appends
a second copy of every index and every output row comes out with its columns
duplicated: the two outputs differ. -/
theorem claim_C4_second_run_differs :
    c4Run1.2 = .ok [["price", "note"], ["1", "x"]]
    ∧ c4Run2.2 = .ok [["price", "note", "price", "note"], ["1", "x", "1", "x"]]
    ∧ c4Run1.2 ≠ c4Run2.2 := by decide

/-- Claim C5.  The claim says header resolution leaves the caller's
`requiredFields` list untouched.  `remove` shifts the shared backing array in
place, so after the (successful) resolution of the C5 run the caller's
two-element slice reads `["price", "price"]` instead of the original
`["brand", "price"]` — the sheet's stored slice has the caller's backing
array and length, so its view is exactly what the caller now sees. -/
theorem claim_C5_caller_required_fields_mutated :
    c5Resolved.2 = some 0
    ∧ c5Resolved.1.requiredHeaders.view = ["price", "price"]
    ∧ c5Resolved.1.requiredHeaders.view ≠ ["brand", "price"] := by decide

/-- Claim C6, counterexample.  The claim treats `requiredFields` as a set, so
with `requiredFields = ["price", "price"]` and `"price"` present among the
alias-map values the precondition check should succeed; the code consumes one
required entry per alias-map entry, leaves the duplicate behind, and fails. -/
theorem claim_C6_counterexample :
    (parseIncomingHeadersInfo freshSheet [("price usd", "price")]
        ⟨["price", "price"], 2⟩).2 = true
    ∧ "price" ∈ valuesOf [("price usd", "price")] := by decide

/-- Claim C10.  With `ForceDataStartRow` set and `ForceDataEndRow` nil — the
only combination the CLI `-start-row` flag and the HTTP `start_row` field can
produce — `processTableData` takes the automatic path: the manual branch
requires both bounds, and the improved detection never reads the forced
start, so the result equals the fully automatic one. -/
theorem claim_C10_forced_start_alone_ignored
    (records : List (List String)) (v : Int) :
    processTableData (some v) none records = processTableData none none records :=
  rfl

/-- Claim C7.  With both forced bounds supplied and `0 ≤ start ≤ end < rowCount`
the result of `processTableData` is exactly rows `start..end` of the grid
(stated positionally: the detection heuristics contribute nothing); with both
bounds supplied but the pair out of order or range, the result is the fully
automatic one — a silent fallback, not a failure. -/
theorem claim_C7_forced_bounds_precedence :
    (∀ (records : List (List String)) (s e : Int),
        0 ≤ s → s ≤ e → e < (records.length : Int) →
        (processTableData (some s) (some e) records).length = e.toNat - s.toNat + 1
        ∧ ∀ k : Nat, k < e.toNat - s.toNat + 1 →
            (processTableData (some s) (some e) records)[k]? = records[s.toNat + k]?)
    ∧ ∀ (records : List (List String)) (s e : Int),
        ¬ (0 ≤ s ∧ s ≤ e ∧ e < (records.length : Int)) →
        processTableData (some s) (some e) records = processTableData none none records := by
  constructor
  · intro records s e hs hse he
    obtain ⟨a, t, rfl⟩ : ∃ a t, records = a :: t := by
      cases records with
      | nil => simp at he; omega
      | cons a t => exact ⟨a, t, rfl⟩
    have hlen : e.toNat < (a :: t).length := by omega
    have hsle : s.toNat ≤ e.toNat := by omega
    have hout : processTableData (some s) (some e) (a :: t) = goSliceRows (a :: t) s e := by
      show (if 0 ≤ s ∧ s ≤ e ∧ s < ((a :: t).length : Int) ∧ e < ((a :: t).length : Int)
            then goSliceRows (a :: t) s e else autoProcess (a :: t)) = goSliceRows (a :: t) s e
      exact if_pos ⟨hs, hse, by omega, he⟩
    rw [hout]
    unfold goSliceRows
    constructor
    · rw [List.length_take, List.length_drop, Nat.min_eq_left (by omega)]
      omega
    · intro k hk
      rw [List.getElem?_take_of_lt (by omega), List.getElem?_drop]
  · intro records s e h
    cases records with
    | nil => rfl
    | cons a t =>
      show (if 0 ≤ s ∧ s ≤ e ∧ s < ((a :: t).length : Int) ∧ e < ((a :: t).length : Int)
            then goSliceRows (a :: t) s e else autoProcess (a :: t)) = autoProcess (a :: t)
      exact if_neg fun c => h ⟨c.1, c.2.1, c.2.2.2⟩

/-- Witness for C7: both branches at concrete inputs — valid bounds `(1, 2)`
on a three-row grid return rows 1 and 2, and the inverted pair `(2, 1)` falls
back to the automatic result. -/
theorem claim_C7_witness :
    ((processTableData (some 1) (some 2) [["a"], ["b"], ["c"]]).length = 2
      ∧ ∀ k : Nat, k < 2 →
          (processTableData (some 1) (some 2) [["a"], ["b"], ["c"]])[k]?
            = [["a"], ["b"], ["c"]][1 + k]?)
    ∧ processTableData (some 2) (some 1) [["a"], ["b"], ["c"]]
        = processTableData none none [["a"], ["b"], ["c"]] := by
  constructor
  · exact claim_C7_forced_bounds_precedence.1 [["a"], ["b"], ["c"]] 1 2
      (by decide) (by decide) (by decide)
  · exact claim_C7_forced_bounds_precedence.2 [["a"], ["b"], ["c"]] 2 1 (by decide)

/-- Indices produced by `enumFrom i l` lie in `[i, i + l.length)`. -/
theorem mem_enumFrom {α : Type} {j : Nat} {a : α} :
    ∀ {i : Nat} {l : List α}, (j, a) ∈ enumFrom i l → i ≤ j ∧ j < i + l.length := by
  intro i l
  induction l generalizing i with
  | nil => intro h; simp [enumFrom] at h
  | cons b t ih =>
    intro h
    simp only [enumFrom, List.mem_cons] at h
    rcases h with h | h
    · rw [Prod.mk.injEq] at h
      obtain ⟨rfl, -⟩ := h
      simp only [List.length_cons]
      omega
    · have := ih h
      simp only [List.length_cons]
      omega

/-- Invariant of the header-candidate scan: a winning row is one of the
scanned indices and its non-empty count is at least five. -/
theorem findHeaderLoop_some {n : Nat} (l : List (Nat × List String)) :
    ∀ (st : Option Nat × Nat),
      (∀ p ∈ l, p.1 < n) →
      (∀ h, st.1 = some h → h < n ∧ 5 ≤ st.2) →
      ∀ hdr mx, findHeaderLoop l st = (some hdr, mx) → hdr < n ∧ 5 ≤ mx := by
  induction l with
  | nil =>
    intro st hmem hst hdr mx heq
    obtain ⟨s1, s2⟩ := st
    unfold findHeaderLoop at heq
    rw [Prod.mk.injEq] at heq
    obtain ⟨h1, rfl⟩ := heq
    exact hst hdr h1
  | cons p rest ih =>
    intro st hmem hst hdr mx heq
    obtain ⟨i, r⟩ := p
    obtain ⟨s1, s2⟩ := st
    unfold findHeaderLoop at heq
    by_cases hc : 5 ≤ countNonEmptyCells r ∧ countNumericCells r ≤ 1
        ∧ s2 < countNonEmptyCells r
    · rw [if_pos hc] at heq
      refine ih (some i, countNonEmptyCells r) (fun q hq => hmem q (by simp [hq]))
        ?_ hdr mx heq
      intro h hh
      have : i = h := by simpa using hh
      subst this
      exact ⟨hmem (i, r) (by simp), hc.1⟩
    · rw [if_neg hc] at heq
      exact ih (s1, s2) (fun q hq => hmem q (by simp [hq])) hst hdr mx heq

/-- The extent scan never moves `tableEnd` below its start value and never
past the scanned rows. -/
theorem extentLoopGo_bounds (ec : Nat) :
    ∀ (rows : List (List String)) (te i : Nat), te < i →
      te ≤ extentLoopGo ec te i rows ∧ extentLoopGo ec te i rows < i + rows.length := by
  intro rows
  induction rows with
  | nil =>
    intro te i h
    unfold extentLoopGo
    simp only [List.length_nil]
    omega
  | cons r rest ih =>
    intro te i h
    unfold extentLoopGo
    by_cases h1 : 0 < countNonEmptyCells r ∧ countNonEmptyCells r < ec / 3
    · rw [if_pos h1]; simp only [List.length_cons]; omega
    · rw [if_neg h1]
      by_cases h2 : ec / 2 ≤ countNonEmptyCells r
      · rw [if_pos h2]
        have := ih i (i + 1) (Nat.lt_succ_self i)
        simp only [List.length_cons]
        omega
      · rw [if_neg h2]
        by_cases h3 : countNonEmptyCells r = 0
        · rw [if_pos h3]; simp only [List.length_cons]; omega
        · rw [if_neg h3]
          have := ih te (i + 1) (by omega)
          simp only [List.length_cons]
          omega

/-- The fallback scan returns an index of a scanned row. -/
theorem firstDataIdxAux_bound :
    ∀ (l : List (List String)) (j i : Nat),
      firstDataIdxAux j l = some i → j ≤ i ∧ i < j + l.length := by
  intro l
  induction l with
  | nil => intro j i h; simp [firstDataIdxAux] at h
  | cons r rest ih =>
    intro j i h
    unfold firstDataIdxAux at h
    by_cases hd : hasData r = true
    · rw [if_pos hd] at h
      have : j = i := by simpa using h
      subst this
      simp only [List.length_cons]
      omega
    · rw [if_neg hd] at h
      have := ih (j + 1) i h
      simp only [List.length_cons]
      omega

/-- Claim C9.  Boundary detection is a total function whose result `(start, end)`
satisfies `start ≤ end < rowCount` on every non-empty grid, and is `(0, 0)` on
the empty grid. -/
theorem claim_C9_bounds_validity (g : List (List String)) :
    (g = [] → detectTableBoundariesImproved g = (0, 0))
    ∧ (g ≠ [] →
        (detectTableBoundariesImproved g).1 ≤ (detectTableBoundariesImproved g).2
        ∧ (detectTableBoundariesImproved g).2 < g.length) := by
  constructor
  · intro h; subst h; rfl
  · intro hne
    obtain ⟨a, t, rfl⟩ : ∃ a t, g = a :: t := by
      cases g with
      | nil => exact absurd rfl hne
      | cons a t => exact ⟨a, t, rfl⟩
    have hdet : detectTableBoundariesImproved (a :: t)
        = (match findHeaderLoop (enumFrom 0 (a :: t)) (none, 0) with
           | (some hdr, mx) =>
             (hdr, extentLoopGo mx hdr (hdr + 1) ((a :: t).drop (hdr + 1)))
           | (none, _) =>
             match firstDataIdxAux 0 (a :: t) with
             | some i => (i, (a :: t).length - 1)
             | none => (0, 0)) := rfl
    rcases hfl : findHeaderLoop (enumFrom 0 (a :: t)) (none, 0) with ⟨hdr?, mx⟩
    have hmem : ∀ p ∈ enumFrom 0 (a :: t), p.1 < (a :: t).length := by
      intro p hp
      obtain ⟨j, row⟩ := p
      have := mem_enumFrom hp
      omega
    cases hdr? with
    | some hdr =>
      have hres : detectTableBoundariesImproved (a :: t)
          = (hdr, extentLoopGo mx hdr (hdr + 1) ((a :: t).drop (hdr + 1))) := by
        rw [hdet, hfl]
      obtain ⟨hlt, h5⟩ := findHeaderLoop_some (n := (a :: t).length)
        (enumFrom 0 (a :: t)) (none, 0) hmem (by intro h hh; simp at hh)
        hdr mx hfl
      have hb := extentLoopGo_bounds mx ((a :: t).drop (hdr + 1)) hdr (hdr + 1)
        (Nat.lt_succ_self hdr)
      rw [List.length_drop] at hb
      rw [hres]
      exact ⟨hb.1, by omega⟩
    | none =>
      cases hfd : firstDataIdxAux 0 (a :: t) with
      | some i =>
        have hres : detectTableBoundariesImproved (a :: t)
            = (i, (a :: t).length - 1) := by
          rw [hdet, hfl, hfd]
        have hb := firstDataIdxAux_bound (a :: t) 0 i hfd
        rw [hres]
        constructor
        · simp only
          omega
        · simp only
          omega
      | none =>
        have hres : detectTableBoundariesImproved (a :: t) = (0, 0) := by
          rw [hdet, hfl, hfd]
        rw [hres]
        simp

/-- Witness for C9: the empty grid yields `(0, 0)`, and on a one-row grid the
detected bounds are ordered and within range. -/
theorem claim_C9_witness :
    detectTableBoundariesImproved [] = (0, 0)
    ∧ ((detectTableBoundariesImproved [["x"]]).1
          ≤ (detectTableBoundariesImproved [["x"]]).2
        ∧ (detectTableBoundariesImproved [["x"]]).2 < 1) :=
  ⟨(claim_C9_bounds_validity []).1 rfl,
   (claim_C9_bounds_validity [["x"]]).2 (by decide)⟩

/-- With `expectedCols / 2 ≥ 1` the code's extent loop coincides with the
claim's reading of the scan rules (the two differ only in whether the blank
test precedes the dense test, and a blank row can never pass a positive dense
threshold). -/
theorem extentLoopGo_eq_spec (ec : Nat) (hc : 1 ≤ ec / 2) :
    ∀ (rows : List (List String)) (te i : Nat),
      extentLoopGo ec te i rows = extentScanSpec ec te i rows := by
  intro rows
  induction rows with
  | nil => intro te i; rfl
  | cons r rest ih =>
    intro te i
    unfold extentLoopGo extentScanSpec
    by_cases h1 : 0 < countNonEmptyCells r ∧ countNonEmptyCells r < ec / 3
    · rw [if_pos h1, if_pos h1]
    · rw [if_neg h1, if_neg h1]
      by_cases h3 : countNonEmptyCells r = 0
      · have h2 : ¬ ec / 2 ≤ countNonEmptyCells r := by omega
        rw [if_neg h2, if_pos h3, if_pos h3]
      · by_cases h2 : ec / 2 ≤ countNonEmptyCells r
        · rw [if_pos h2, if_neg h3, if_pos h2]
          exact ih i (i + 1)
        · rw [if_neg h2, if_neg h3, if_neg h3, if_neg h2]
          exact ih te (i + 1)

/-- Claim C8.  Whenever the header-candidate scan finds a winning row, the
result of `detectTableBoundariesImproved` is that row paired with the extent
the claim's rules describe (stop at the first sparse footer row, stop at a
blank row, advance `lastGoodRow` on dense rows, skip the rest); in particular
Scenario 4's five-row grid yields bounds `(1, 3)`. -/
theorem claim_C8_extent_scan :
    (∀ (g : List (List String)) (hdr mx : Nat),
        findHeaderLoop (enumFrom 0 g) (none, 0) = (some hdr, mx) →
        detectTableBoundariesImproved g
          = (hdr, extentScanSpec mx hdr (hdr + 1) (g.drop (hdr + 1))))
    ∧ detectTableBoundariesImproved scenario4Grid = (1, 3) := by
  constructor
  · intro g hdr mx hfl
    have hmem : ∀ p ∈ enumFrom 0 g, p.1 < g.length := by
      intro p hp
      obtain ⟨j, row⟩ := p
      have := mem_enumFrom hp
      omega
    obtain ⟨hlt, h5⟩ := findHeaderLoop_some (n := g.length) (enumFrom 0 g)
      (none, 0) hmem (by intro h hh; simp at hh) hdr mx hfl
    obtain ⟨a, t, rfl⟩ : ∃ a t, g = a :: t := by
      cases g with
      | nil => simp [enumFrom, findHeaderLoop] at hfl
      | cons a t => exact ⟨a, t, rfl⟩
    have hdet : detectTableBoundariesImproved (a :: t)
        = (match findHeaderLoop (enumFrom 0 (a :: t)) (none, 0) with
           | (some hdr, mx) =>
             (hdr, extentLoopGo mx hdr (hdr + 1) ((a :: t).drop (hdr + 1)))
           | (none, _) =>
             match firstDataIdxAux 0 (a :: t) with
             | some i => (i, (a :: t).length - 1)
             | none => (0, 0)) := rfl
    have hres : detectTableBoundariesImproved (a :: t)
        = (hdr, extentLoopGo mx hdr (hdr + 1) ((a :: t).drop (hdr + 1))) := by
      rw [hdet, hfl]
    have hdiv : 1 ≤ mx / 2 := (Nat.le_div_iff_mul_le (by norm_num)).mpr (by omega)
    rw [hres, extentLoopGo_eq_spec mx hdiv ((a :: t).drop (hdr + 1)) hdr (hdr + 1)]
  · decide

/-- Witness for C8: on Scenario 4's grid the header scan wins at row 1 with
five non-empty cells, and the detected bounds equal the claim-worded extent
scan from row 2 on. -/
theorem claim_C8_witness :
    detectTableBoundariesImproved scenario4Grid
      = (1, extentScanSpec 5 1 2 (scenario4Grid.drop 2)) :=
  claim_C8_extent_scan.1 scenario4Grid 1 5 (by decide)

/-- A found index is within the searched list. -/
theorem findIdxStr_lt (v : String) :
    ∀ (l : List String) (i : Nat), findIdxStr v l = some i → i < l.length := by
  intro l
  induction l with
  | nil => intro i h; simp [findIdxStr] at h
  | cons a t ih =>
    intro i h
    unfold findIdxStr at h
    by_cases ha : a = v
    · rw [if_pos ha] at h
      obtain rfl : (0 : Nat) = i := by simpa using h
      simp
    · rw [if_neg ha] at h
      rcases ho : findIdxStr v t with _ | j
      · rw [ho] at h; simp at h
      · rw [ho] at h
        obtain rfl : j + 1 = i := by simpa using h
        have := ih j ho
        simp only [List.length_cons]
        omega

/-- Erasing at the found index is erasing the first occurrence. -/
theorem findIdxStr_eraseIdx (v : String) :
    ∀ (l : List String) (i : Nat), findIdxStr v l = some i →
      l.eraseIdx i = eraseFirst l v := by
  intro l
  induction l with
  | nil => intro i h; simp [findIdxStr] at h
  | cons a t ih =>
    intro i h
    unfold findIdxStr at h
    unfold eraseFirst
    by_cases ha : a = v
    · rw [if_pos ha] at h
      obtain rfl : (0 : Nat) = i := by simpa using h
      rw [if_pos ha]
      rfl
    · rw [if_neg ha] at h
      rw [if_neg ha]
      rcases ho : findIdxStr v t with _ | j
      · rw [ho] at h; simp at h
      · rw [ho] at h
        obtain rfl : j + 1 = i := by simpa using h
        simp only [List.eraseIdx_cons_succ, List.cons.injEq, true_and]
        exact ih j ho

/-- When the value is absent, erasing its first occurrence is the identity. -/
theorem findIdxStr_none (v : String) :
    ∀ l : List String, findIdxStr v l = none → eraseFirst l v = l := by
  intro l
  induction l with
  | nil => intro _; rfl
  | cons a t ih =>
    intro h
    unfold findIdxStr at h
    by_cases ha : a = v
    · rw [if_pos ha] at h; simp at h
    · rw [if_neg ha] at h
      unfold eraseFirst
      rw [if_neg ha]
      rcases ho : findIdxStr v t with _ | j
      · rw [ih ho]
      · rw [ho] at h; simp at h

/-- What `remove` does to a valid slice: the backing array keeps its length,
the view length drops by one, and the view loses exactly the element at `i`. -/
theorem removeGo_spec (req : GoSlice) (i : Nat) (hle : req.len ≤ req.arr.length)
    (hi : i < req.len) :
    (removeGo req i).arr.length = req.arr.length
    ∧ (removeGo req i).len = req.len - 1
    ∧ (removeGo req i).view = req.view.eraseIdx i := by
  obtain ⟨A, len⟩ := req
  dsimp only [removeGo, GoSlice.view] at hle hi ⊢
  have hxy : (A.take i ++ (A.drop (i + 1)).take (len - 1 - i)).length = len - 1 := by
    rw [List.length_append, List.length_take, List.length_take, List.length_drop,
      Nat.min_eq_left (by omega), Nat.min_eq_left (by omega)]
    omega
  refine ⟨?_, by trivial, ?_⟩
  · rw [List.length_append, hxy, List.length_drop]
    omega
  · rw [List.take_left' hxy, List.eraseIdx_eq_take_drop_succ, List.take_take,
      Nat.min_eq_left (by omega), List.drop_take,
      show len - (i + 1) = len - 1 - i by omega]

/-- The `parseIncomingHeadersInfo` loop, seen through the slice view: it folds
first-occurrence erasure of each alias-map value over the required list, and
its final length is the length of that fold. -/
theorem parseLoop_spec :
    ∀ (entries : List (String × String)) (req : GoSlice),
      req.len ≤ req.arr.length →
      (parseLoop entries req).view
          = (valuesOf entries).foldl eraseFirst req.view
        ∧ (parseLoop entries req).len
          = ((valuesOf entries).foldl eraseFirst req.view).length := by
  intro entries
  induction entries with
  | nil =>
    intro req hle
    unfold parseLoop
    have hvn : valuesOf ([] : List (String × String)) = [] := rfl
    rw [hvn]
    simp only [List.foldl_nil]
    refine ⟨by trivial, ?_⟩
    simp only [GoSlice.view]
    rw [List.length_take, Nat.min_eq_left hle]
  | cons e rest ih =>
    intro req hle
    obtain ⟨k, v⟩ := e
    have hvc : valuesOf ((k, v) :: rest) = v :: valuesOf rest := rfl
    unfold parseLoop
    rcases hfi : findIdxStr v req.view with _ | i
    · have he : eraseFirst req.view v = req.view := findIdxStr_none v req.view hfi
      rw [hvc, List.foldl_cons, he]
      exact ih req hle
    · have hlt : i < req.view.length := findIdxStr_lt v req.view i hfi
      have hlen : req.view.length = req.len := by
        simp only [GoSlice.view]
        rw [List.length_take, Nat.min_eq_left hle]
      obtain ⟨harr, hlen2, hview⟩ := removeGo_spec req i hle (by omega)
      have herase : req.view.eraseIdx i = eraseFirst req.view v :=
        findIdxStr_eraseIdx v req.view i hfi
      have ihr := ih (removeGo req i) (by rw [hlen2, harr]; omega)
      rw [hview, herase] at ihr
      rw [hvc, List.foldl_cons]
      exact ihr

/-- On a duplicate-free list, erasing the first occurrence is filtering. -/
theorem eraseFirst_of_nodup :
    ∀ (l : List String) (v : String), l.Nodup →
      eraseFirst l v = l.filter (fun x => x ≠ v) := by
  intro l
  induction l with
  | nil => intro v _; rfl
  | cons a t ih =>
    intro v hnd
    rw [List.nodup_cons] at hnd
    unfold eraseFirst
    by_cases ha : a = v
    · rw [if_pos ha, List.filter_cons]
      have hdec : (decide (a ≠ v)) = false := by simp [ha]
      rw [hdec]
      simp only [Bool.false_eq_true, if_false]
      symm
      apply List.filter_eq_self.mpr
      intro x hx
      simp only [ne_eq, decide_eq_true_eq]
      intro hxv
      exact hnd.1 (by rw [← ha] at hxv; rw [← hxv]; exact hx)
    · rw [if_neg ha, List.filter_cons]
      have hdec : (decide (a ≠ v)) = true := by simp [ha]
      rw [hdec]
      simp only [if_true]
      rw [ih v hnd.2]

/-- Folding first-occurrence erasure of every value over a duplicate-free list
keeps exactly the entries that are not values. -/
theorem foldl_eraseFirst_of_nodup :
    ∀ (vs l : List String), l.Nodup →
      vs.foldl eraseFirst l = l.filter (fun x => ¬ x ∈ vs) := by
  intro vs
  induction vs with
  | nil =>
    intro l hnd
    simp only [List.foldl_nil]
    symm
    apply List.filter_eq_self.mpr
    intro x hx
    simp
  | cons v vs ih =>
    intro l hnd
    have h1 : eraseFirst l v = l.filter (fun x => x ≠ v) := eraseFirst_of_nodup l v hnd
    have h2 : (eraseFirst l v).Nodup := by rw [h1]; exact hnd.filter _
    rw [List.foldl_cons, ih (eraseFirst l v) h2, h1, List.filter_filter]
    apply List.filter_congr
    intro x _
    by_cases hx1 : x = v <;> by_cases hx2 : x ∈ vs <;> simp [hx1, hx2]

/-- Claim C6, amended.  For a duplicate-free `requiredFields` list the
precondition check fails (with `errRequiredHeaders`, before any grid row is
touched — the check never reads the grid) exactly when some required field is
not a value of the alias map.  With duplicates the check is stricter than the
claim's set reading: each alias-map entry satisfies at most one required
occurrence (see the counterexample). -/
theorem claim_C6_amended_precondition (entries : List (String × String))
    (l : List String) (hnd : l.Nodup) :
    (parseIncomingHeadersInfo freshSheet entries ⟨l, l.length⟩).2 = true
      ↔ ∃ f ∈ l, f ∉ valuesOf entries := by
  obtain ⟨hview, hlen⟩ := parseLoop_spec entries ⟨l, l.length⟩ (le_refl _)
  have hv : GoSlice.view ⟨l, l.length⟩ = l := List.take_length l
  rw [hv] at hview hlen
  have h2 : (parseIncomingHeadersInfo freshSheet entries ⟨l, l.length⟩).2
      = decide ((parseLoop entries ⟨l, l.length⟩).len ≠ 0) := rfl
  rw [h2, decide_eq_true_iff]
  rw [hlen, foldl_eraseFirst_of_nodup (valuesOf entries) l hnd]
  simp only [Ne, List.length_eq_zero, List.filter_eq_nil_iff, decide_eq_true_eq]
  push_neg
  rfl

/-- Witness for C6's amended theorem: with duplicate-free required fields
`["brand", "price"]` and the single alias value `"price"`, the check fails. -/
theorem claim_C6_witness :
    (parseIncomingHeadersInfo freshSheet [("price usd", "price")]
        ⟨["brand", "price"], 2⟩).2 = true :=
  (claim_C6_amended_precondition [("price usd", "price")] ["brand", "price"]
      (by decide)).mpr ⟨"brand", by decide, by decide⟩

end Excel2Csv
